import Mathlib

/-!
Verification of the img-compression image transformation core.

The definitions below are a shallow embedding of the repository's
TypeScript source:

- `lib/removeBackground.ts` (admission gate and background-removal
  pipeline around the external segmentation capability);
- `lib/imageProcessor.ts` (quality resolution, duplication, naming,
  `ProcessedImage` construction and base64 encoding);
- `app/api/images/duplicate/route.ts` (server-side duplicate-count clamp);
- `app/api/images/remove-background/route.ts` (HTTP error-status mapping).

JavaScript numbers holding counters are embedded as `Int` (all values that
occur are small integers); byte buffers are `List Nat` with values below
256; strings are `String` or `List Char` as convenient.  External
libraries (sharp, the IMG.LY segmentation model, Node's base64 codec) are
not part of the repository; where their behaviour matters it is modelled
from the specification, each such definition saying so in its doc comment.
-/

namespace ImgCompression

/-! ### Admission gate (lib/removeBackground.ts lines 5-6, 25-31, 110-112) -/

/-- Source constant `MAX_CONCURRENT_REMOVALS = 2`. -/
def MAX_CONCURRENT_REMOVALS : Int := 2

/-- Admission attempt: mirrors `if (activeRemovals >= MAX_CONCURRENT_REMOVALS) throw Busy`
followed by `activeRemovals++`.  Returns whether entry was granted and the
new counter value. -/
def tryEnter (c : Int) : Bool × Int :=
  if MAX_CONCURRENT_REMOVALS ≤ c then (false, c) else (true, c + 1)

/-- Gate release: mirrors the source `finally` block
`activeRemovals = Math.max(0, activeRemovals - 1)`. -/
def leave (c : Int) : Int := max 0 (c - 1)

/-- An operation on the shared counter `activeRemovals`. -/
inductive GateOp where
  | enterOp : GateOp
  | leaveOp : GateOp

/-- One gate operation acting on the counter. -/
def gateStep (c : Int) : GateOp → Int
  | GateOp.enterOp => (tryEnter c).2
  | GateOp.leaveOp => leave c

/-- The counter reached from the initial value 0 (module load sets
`let activeRemovals = 0`) after a sequence of gate operations. -/
def runGate (ops : List GateOp) : Int := List.foldl gateStep 0 ops

/-! ### Quality resolver (lib/imageProcessor.ts, `resolveQuality`) -/

/-- Source union type `QualityPreset = 'high' | 'medium' | 'low'`. -/
inductive QualityPreset where
  | high : QualityPreset
  | medium : QualityPreset
  | low : QualityPreset

/-- Source record `QUALITY_BY_PRESET = { high: 90, medium: 80, low: 65 }`. -/
def QUALITY_BY_PRESET : QualityPreset → Int
  | QualityPreset.high => 90
  | QualityPreset.medium => 80
  | QualityPreset.low => 65

/-- A JavaScript number as far as `resolveQuality` observes it: a finite
value (embedded as a rational) or one of the non-finite values. -/
inductive JSNum where
  | num : ℚ → JSNum
  | nan : JSNum
  | inf : JSNum
  | negInf : JSNum

/-- JavaScript `Math.round`: round half toward positive infinity. -/
def jsRound (q : ℚ) : Int := Int.floor (q + 1 / 2)

/-- Source helper `clamp(value, min, max) = Math.min(Math.max(value, min), max)`. -/
def clamp (value lo hi : Int) : Int := min (max value lo) hi

/-- Source `resolveQuality(preset?, quality?)`.  The first branch is
`typeof quality === 'number' && Number.isFinite(quality)`; the second is
`preset && QUALITY_BY_PRESET[preset]` (always truthy for the three
presets); the fallback is `QUALITY_BY_PRESET.high`. -/
def resolveQuality (preset : Option QualityPreset) (quality : Option JSNum) : Int :=
  match quality with
  | some (JSNum.num q) => clamp (jsRound q) 1 100
  | _ =>
    match preset with
    | some p => QUALITY_BY_PRESET p
    | none => QUALITY_BY_PRESET QualityPreset.high

/-! ### Errors and the background-removal pipeline (lib/removeBackground.ts) -/

/-- A JavaScript error as the pipeline observes it: either an instance of
the source class `BGError` (carrying its message), or any other thrown
error, whose `message` property may be absent (`err?.message` yields
`undefined`). -/
inductive JSError where
  | bgError : String → JSError
  | otherError : Option String → JSError
  deriving DecidableEq

/-- The message extraction in the source `catch` block:
`err instanceof BGError ? err.message : err?.message ?? "Unknown background removal error"`. -/
def errMessage : JSError → String
  | JSError.bgError m => m
  | JSError.otherError m => m.getD "Unknown background removal error"

/-- The message of the `BGError` thrown on admission rejection. -/
def busyMessage : String :=
  "Server is busy processing other background removals. Please try again shortly."

/-- The message of the `BGError` thrown on an empty input buffer. -/
def emptyMessage : String := "Uploaded file is empty or unreadable."

/-- A decoded raster image as the alpha post-processing observes it: the
RGB channels and the alpha channel, each a list of 8-bit samples.
Modelled from the spec: sharp's channel view of a buffer is external; the
spec describes the refinement as acting on "the alpha channel" and "the
original RGB channels of the segmentation output". -/
structure Image where
  rgb : List (Nat × Nat × Nat)
  alpha : List Nat

/-- The three channel-level primitives the refinement chain applies.
Modelled from the spec: sharp's `linear`, `threshold` and `blur` are
external library operations; the claims under verification are about the
constants and the order in which the repository applies them, so the
primitives are kept as parameters and the chain is proved equal for every
choice of primitive semantics. -/
structure ChannelOps where
  linearFn : ℚ → ℚ → List Nat → List Nat
  thresholdFn : Nat → List Nat → List Nat
  blurFn : ℚ → List Nat → List Nat

/-- Alpha post-processing translated from lib/removeBackground.ts lines
79-96: `extractChannel('alpha')` reads `raw.alpha`; then
`.linear(1.2, -25).threshold(15).blur(0.5)` in source order; finally
`removeAlpha()` reads `raw.rgb` and `joinChannel(alphaChannel)` recombines. -/
def alphaPostProcess (ops : ChannelOps) (raw : Image) : Image :=
  let alphaChannel := ops.blurFn 0.5 (ops.thresholdFn 15 (ops.linearFn 1.2 (-25) raw.alpha))
  Image.mk raw.rgb alphaChannel

/-- One named step of the refinement chain as the specification words it:
a linear gain/bias transform, a hard threshold, or a blur. -/
inductive RefineStep where
  | gainBias : ℚ → ℚ → RefineStep
  | hardThreshold : Nat → RefineStep
  | softBlur : ℚ → RefineStep

/-- Interpretation of one named refinement step over a channel. -/
def applyRefineStep (ops : ChannelOps) (ch : List Nat) : RefineStep → List Nat
  | RefineStep.gainBias g b => ops.linearFn g b ch
  | RefineStep.hardThreshold t => ops.thresholdFn t ch
  | RefineStep.softBlur r => ops.blurFn r ch

/-- The fixed ordered step list the specification prescribes:
gain/bias (1.2, -25), then threshold 15, then blur 0.5. -/
def alphaRefinementSteps : List RefineStep :=
  [RefineStep.gainBias 1.2 (-25), RefineStep.hardThreshold 15, RefineStep.softBlur 0.5]

/-- The refinement as the specification words it: fold the fixed ordered
step list over the alpha channel, then recombine with the original RGB. -/
def specRefineAlpha (ops : ChannelOps) (img : Image) : Image :=
  Image.mk img.rgb (List.foldl (applyRefineStep ops) img.alpha alphaRefinementSteps)

/-- The external collaborators of one `removeBackgroundLocal` invocation.
Modelled from the spec: sharp metadata/preprocessing, the IMG.LY
segmentation call, the buffer-to-channel decoding and the final PNG
encoding are all external library calls; each fallible one is an
`Except` supplied by the environment.  The two post-processing
`toBuffer()` calls are collapsed into the single fallible `encode`. -/
structure RBEnv where
  metadata : Except JSError (Nat × Nat)
  preprocess : Except JSError (List Nat)
  segment : List Nat → Except JSError (List Nat)
  decode : List Nat → Image
  encode : Image → Except JSError (List Nat)

/-- Outcome of one `removeBackgroundLocal` invocation: the result (or the
`BGError` thrown), the value of `activeRemovals` after the invocation, and
whether the external segmentation capability was invoked. -/
structure RBResult where
  result : Except JSError (List Nat)
  counter : Int
  segmentCalled : Bool

/-- The `try` block of `removeBackgroundLocal`: the empty-input check,
then the metadata, preprocessing, segmentation and alpha post-processing
sequence; the second component records whether the external segmentation
capability was invoked. -/
def rbBody (ops : ChannelOps) (env : RBEnv) (input : List Nat) :
    Except JSError (List Nat) × Bool :=
  if input.length = 0 then (Except.error (JSError.bgError emptyMessage), false)
  else
    match env.metadata with
    | Except.error e => (Except.error e, false)
    | Except.ok _ =>
      match env.preprocess with
      | Except.error e => (Except.error e, false)
      | Except.ok pre =>
        match env.segment pre with
        | Except.error e => (Except.error e, true)
        | Except.ok raw =>
          match env.encode (alphaPostProcess ops (env.decode raw)) with
          | Except.error e => (Except.error e, true)
          | Except.ok out => (Except.ok out, true)

/-- The `catch` block of `removeBackgroundLocal`: any error is rethrown as
`new BGError(message)` with the message extracted by `errMessage`. -/
def wrapBG : Except JSError (List Nat) → Except JSError (List Nat)
  | Except.ok out => Except.ok out
  | Except.error e => Except.error (JSError.bgError (errMessage e))

/-- `removeBackgroundLocal` from lib/removeBackground.ts, as a function of
the prior `activeRemovals` value: the admission check and increment (lines
25-31), the `try` body `rbBody`, the `catch` wrapper `wrapBG`, and the
`finally` that floors the decremented counter at 0. -/
def removeBackgroundLocal (ops : ChannelOps) (env : RBEnv) (input : List Nat)
    (active : Int) : RBResult :=
  if MAX_CONCURRENT_REMOVALS ≤ active then
    RBResult.mk (Except.error (JSError.bgError busyMessage)) active false
  else
    RBResult.mk (wrapBG (rbBody ops env input).1) (max 0 (active + 1 - 1))
      (rbBody ops env input).2

/-! ### HTTP error mapping (app/api/images/remove-background/route.ts) -/

/-- The route's `err instanceof BGError` test. -/
def isBGError : JSError → Bool
  | JSError.bgError _ => true
  | JSError.otherError _ => false

/-- The route's status selection: `err instanceof BGError ? 400 : 500`. -/
def routeStatus (e : JSError) : Nat := if isBGError e then 400 else 500

/-- The route's response message:
`err instanceof BGError ? err.message : err?.message ?? "Unknown server error"`. -/
def routeMessage : JSError → String
  | JSError.bgError m => m
  | JSError.otherError m => m.getD "Unknown server error"

/-! ### ProcessedImage and base64 (lib/imageProcessor.ts) -/

/-- Source interface `ProcessedImage`; `buffer` is the byte sequence
(`size` is named `size` in the source as well), `name`, `mime` and
`base64` are strings, kept as character lists. -/
structure ProcessedImage where
  name : List Char
  mime : List Char
  size : Nat
  buffer : List Nat
  base64 : List Char

/-- The base64 alphabet used by Node's `Buffer.toString('base64')`
(RFC 4648, with `+` and `/`). -/
def base64Alphabet : List Char :=
  ['A', 'B', 'C', 'D', 'E', 'F', 'G', 'H', 'I', 'J', 'K', 'L', 'M',
   'N', 'O', 'P', 'Q', 'R', 'S', 'T', 'U', 'V', 'W', 'X', 'Y', 'Z',
   'a', 'b', 'c', 'd', 'e', 'f', 'g', 'h', 'i', 'j', 'k', 'l', 'm',
   'n', 'o', 'p', 'q', 'r', 's', 't', 'u', 'v', 'w', 'x', 'y', 'z',
   '0', '1', '2', '3', '4', '5', '6', '7', '8', '9', '+', '/']

/-- The alphabet character at a sextet index. -/
def alphaChar (i : Nat) : Char := base64Alphabet.getD i 'A'

/-- Index of a character in a character list, if present. -/
def charIndex (c : Char) : List Char → Option Nat
  | [] => none
  | d :: rest => if d = c then some 0 else (charIndex c rest).map (· + 1)

/-- Standard padded base64 encoding of a byte list.
Modelled from the spec: Node's `Buffer.prototype.toString('base64')` is
external; it is the standard RFC 4648 padded encoding. -/
def encodeBase64 : List Nat → List Char
  | [] => []
  | [b0] => [alphaChar (b0 / 4), alphaChar (b0 % 4 * 16), '=', '=']
  | [b0, b1] =>
      [alphaChar (b0 / 4), alphaChar (b0 % 4 * 16 + b1 / 16),
       alphaChar (b1 % 16 * 4), '=']
  | b0 :: b1 :: b2 :: rest =>
      alphaChar (b0 / 4) :: alphaChar (b0 % 4 * 16 + b1 / 16) ::
      alphaChar (b1 % 16 * 4 + b2 / 64) :: alphaChar (b2 % 64) ::
      encodeBase64 rest

/-- Standard base64 decoding of a character list.
Modelled from the spec: the spec's round-trip property speaks of
"base64-decoding" a field; this is the strict RFC 4648 padded decoder. -/
def decodeBase64 : List Char → Option (List Nat)
  | [] => some []
  | c0 :: c1 :: c2 :: c3 :: rest =>
      match charIndex c0 base64Alphabet, charIndex c1 base64Alphabet with
      | some s0, some s1 =>
        if c2 = '=' then
          if c3 = '=' ∧ rest = [] then some [s0 * 4 + s1 / 16] else none
        else
          match charIndex c2 base64Alphabet with
          | some s2 =>
            if c3 = '=' then
              if rest = [] then some [s0 * 4 + s1 / 16, s1 % 16 * 16 + s2 / 4]
              else none
            else
              match charIndex c3 base64Alphabet, decodeBase64 rest with
              | some s3, some bs =>
                  some ((s0 * 4 + s1 / 16) :: (s1 % 16 * 16 + s2 / 4) ::
                        (s2 % 4 * 64 + s3) :: bs)
              | _, _ => none
          | none => none
      | _, _ => none
  | _ => none

/-- Source `bufferToBase64(buffer) = buffer.toString('base64')`. -/
def bufferToBase64 (buffer : List Nat) : List Char := encodeBase64 buffer

/-- Source `toProcessedImage(buffer, name, mime)`: `size` is
`buffer.length` and `base64` is `bufferToBase64(buffer)`. -/
def toProcessedImage (buffer : List Nat) (nm mime : List Char) : ProcessedImage :=
  ProcessedImage.mk nm mime buffer.length buffer (bufferToBase64 buffer)

/-! ### Duplication and copy naming (lib/imageProcessor.ts, duplicate route) -/

/-- JavaScript `String.prototype.split` on a single-character separator:
splits into (possibly empty) segments; an input with no separator yields a
single segment, and the result is never empty. -/
def splitOnChar (sep : Char) : List Char → List (List Char)
  | [] => [[]]
  | c :: rest =>
    match splitOnChar sep rest with
    | [] => [[c]]
    | h :: t => if c = sep then [] :: h :: t else (c :: h) :: t

/-- The literal `-copy-` of the template `` `${name}-copy-${index}` ``. -/
def copyChars : List Char := ['-', 'c', 'o', 'p', 'y', '-']

/-- Decimal rendering of the copy index (JS template interpolation of a
positive integer). -/
def natChars (n : Nat) : List Char := (Nat.repr n).toList

/-- Source `appendSuffix(filename, index)`:
`const [name, ...rest] = filename.split('.')`, `const ext = rest.pop()`,
then `` ext ? `${suffix}.${ext}` : suffix `` where the empty string is
falsy. -/
def appendSuffix (filename : List Char) (index : Nat) : List Char :=
  match splitOnChar '.' filename with
  | [] => []
  | nm :: rest =>
    let ext := rest.getLast?
    let suffix := nm ++ copyChars ++ natChars index
    match ext with
    | some e => if e = [] then suffix else suffix ++ '.' :: e
    | none => suffix

/-- Source `duplicateImage(input, count)`:
`Array.from({ length: count }).map((_, i) => ({ ...input, name: appendSuffix(input.name, i + 1) }))`. -/
def duplicateImage (input : ProcessedImage) (count : Nat) : List ProcessedImage :=
  (List.range count).map fun i => { input with name := appendSuffix input.name (i + 1) }

/-- Source constant `MAX_DUPLICATES = 20` of the duplicate route. -/
def MAX_DUPLICATES : Int := 20

/-- The duplicate route's count handling composed with duplication:
`const count = Math.min(requested, MAX_DUPLICATES)` followed by
`Array.from({ length: count }).map(...)`; a JavaScript array length is the
requested length floored at 0, hence `Int.toNat`. -/
def duplicateRoute (img : ProcessedImage) (count : Int) : List ProcessedImage :=
  duplicateImage img (min count MAX_DUPLICATES).toNat

/-! ### Concrete instances used to evaluate the definitions -/

/-- `Number.isFinite` on the embedded JavaScript number. -/
def jsFinite : JSNum → Bool
  | JSNum.num _ => true
  | _ => false

/-- Clamp a rational into the 8-bit sample range, rounding.
Modelled from the spec: the spec gives the linear step as
`alpha' = alpha * gain + bias` over byte-valued samples. -/
def ratToByte (q : ℚ) : Nat :=
  if q ≤ 0 then 0 else if 255 ≤ q then 255 else (jsRound q).toNat

/-- Modelled from the spec: the linear gain/bias transform applied
sample-wise to a channel. -/
def specLinear (gain bias : ℚ) (ch : List Nat) : List Nat :=
  ch.map fun v => ratToByte (gain * v + bias)

/-- Modelled from the spec: the hard threshold zeroes any sample at or
below the threshold value and keeps the rest. -/
def specThreshold (t : Nat) (ch : List Nat) : List Nat :=
  ch.map fun v => if v ≤ t then 0 else v

/-- A stand-in blur used only to evaluate the pipeline on concrete data;
the theorems about the refinement chain hold for every blur. -/
def idBlur (_ : ℚ) (ch : List Nat) : List Nat := ch

/-- Channel primitives assembled for concrete evaluation. -/
def specChannelOps : ChannelOps :=
  ChannelOps.mk specLinear specThreshold idBlur

/-- An environment in which every external collaborator succeeds. -/
def okEnv : RBEnv :=
  RBEnv.mk (Except.ok (1, 1)) (Except.ok [0])
    (fun _ => Except.ok [7])
    (fun _ => Image.mk [(1, 2, 3)] [20])
    (fun img => Except.ok img.alpha)

/-- An environment in which the external segmentation capability fails
with a generic (non-`BGError`) error. -/
def segFailEnv : RBEnv :=
  RBEnv.mk (Except.ok (1, 1)) (Except.ok [0])
    (fun _ => Except.error (JSError.otherError (some "model inference failed")))
    (fun _ => Image.mk [(1, 2, 3)] [20])
    (fun img => Except.ok img.alpha)

/-- A concrete processed image named `test.png`. -/
def testImg : ProcessedImage :=
  ProcessedImage.mk "test.png".toList "image/png".toList 4 [1, 2, 3, 4]
    (bufferToBase64 [1, 2, 3, 4])

/-! ### Gate lemmas -/

theorem gateStep_bounds (c : Int) (op : GateOp) (h0 : 0 ≤ c) (h2 : c ≤ 2) :
    0 ≤ gateStep c op ∧ gateStep c op ≤ 2 := by
  cases op with
  | enterOp =>
    simp only [gateStep, tryEnter, MAX_CONCURRENT_REMOVALS]
    by_cases hc : (2 : Int) ≤ c
    · simp only [if_pos hc]
      omega
    · simp only [if_neg hc]
      omega
  | leaveOp =>
    simp only [gateStep, leave]
    omega

theorem runGate_bounds_aux (ops : List GateOp) :
    ∀ c : Int, 0 ≤ c → c ≤ 2 →
      0 ≤ List.foldl gateStep c ops ∧ List.foldl gateStep c ops ≤ 2 := by
  induction ops with
  | nil =>
    intro c h0 h2
    exact ⟨h0, h2⟩
  | cons op rest ih =>
    intro c h0 h2
    have h := gateStep_bounds c op h0 h2
    simpa using ih (gateStep c op) h.1 h.2

/-- C2: the admission counter starts at 0 and stays in `[0, 2]` under any
sequence of entries and releases; an entry attempt is rejected exactly
when the counter is at least `MAX_CONCURRENT_REMOVALS = 2` and otherwise
increments it; a release decrements the counter floored at 0. -/
theorem admission_gate_bounds :
    runGate [] = 0
    ∧ (∀ ops : List GateOp, 0 ≤ runGate ops ∧ runGate ops ≤ MAX_CONCURRENT_REMOVALS)
    ∧ (∀ c : Int, (MAX_CONCURRENT_REMOVALS ≤ c → tryEnter c = (false, c))
        ∧ (c < MAX_CONCURRENT_REMOVALS → tryEnter c = (true, c + 1)))
    ∧ (∀ c : Int, leave c = max 0 (c - 1) ∧ 0 ≤ leave c ∧ (1 ≤ c → leave c = c - 1)) := by
  refine ⟨rfl, ?_, ?_, ?_⟩
  · intro ops
    exact runGate_bounds_aux ops 0 (by norm_num) (by norm_num)
  · intro c
    constructor
    · intro h
      simp [tryEnter, h]
    · intro h
      rw [tryEnter, if_neg (by omega)]
  · intro c
    refine ⟨rfl, ?_, ?_⟩
    · simp only [leave]
      omega
    · intro h
      simp only [leave]
      omega

/-- Evaluation of `admission_gate_bounds` at concrete counter values. -/
theorem admission_gate_bounds_witness :
    tryEnter 2 = (false, 2) ∧ tryEnter 0 = (true, 1) ∧ leave 1 = 0 :=
  ⟨(admission_gate_bounds.2.2.1 2).1 (by decide),
   (admission_gate_bounds.2.2.1 0).2 (by decide),
   ((admission_gate_bounds.2.2.2 1).2.2 (by decide)).trans (by decide)⟩

/-! ### Duplication count -/

theorem duplicateImage_length (img : ProcessedImage) (n : Nat) :
    (duplicateImage img n).length = n := by
  simp [duplicateImage]

/-- C4: the duplicate operation exposed by the route produces exactly
`min(count, 20)` entries, and none for a non-positive count; in
particular count 0 gives the empty sequence and count 100 gives 20. -/
theorem duplicate_count_clamped :
    (∀ (img : ProcessedImage) (count : Int),
       ((duplicateRoute img count).length : Int)
         = if count ≤ 0 then 0 else min count MAX_DUPLICATES)
    ∧ (∀ img : ProcessedImage, duplicateRoute img 0 = [])
    ∧ (∀ img : ProcessedImage, (duplicateRoute img 100).length = 20) := by
  refine ⟨?_, ?_, ?_⟩
  · intro img count
    simp only [duplicateRoute, duplicateImage_length, MAX_DUPLICATES]
    split
    · omega
    · omega
  · intro img
    rfl
  · intro img
    rw [duplicateRoute, duplicateImage_length]
    simp only [MAX_DUPLICATES]
    omega

/-! ### Quality resolution -/

/-- C6: `resolveQuality` always yields an integer in `[1, 100]`; a finite
explicit quality is rounded, clamped, and takes precedence over any
preset; a recognized preset maps to 90/80/65; anything else falls back to
the High value 90, with non-finite qualities treated as absent. -/
theorem resolve_quality_contract :
    (∀ p q, 1 ≤ resolveQuality p q ∧ resolveQuality p q ≤ 100)
    ∧ resolveQuality none (some (JSNum.num 150)) = 100
    ∧ resolveQuality none (some (JSNum.num 0)) = 1
    ∧ (∀ p (q : ℚ), resolveQuality (some p) (some (JSNum.num q))
        = resolveQuality none (some (JSNum.num q)))
    ∧ (∀ p, resolveQuality (some p) none = QUALITY_BY_PRESET p)
    ∧ QUALITY_BY_PRESET QualityPreset.high = 90
    ∧ QUALITY_BY_PRESET QualityPreset.medium = 80
    ∧ QUALITY_BY_PRESET QualityPreset.low = 65
    ∧ (∀ p j, jsFinite j = false → resolveQuality p (some j) = resolveQuality p none) := by
  refine ⟨?_, ?_, ?_, ?_, ?_, rfl, rfl, rfl, ?_⟩
  · intro p q
    cases q with
    | none =>
      cases p with
      | none => norm_num [resolveQuality, QUALITY_BY_PRESET]
      | some pp => cases pp <;> norm_num [resolveQuality, QUALITY_BY_PRESET]
    | some j =>
      cases j with
      | num r =>
        simp only [resolveQuality, clamp]
        omega
      | nan =>
        cases p with
        | none => norm_num [resolveQuality, QUALITY_BY_PRESET]
        | some pp => cases pp <;> norm_num [resolveQuality, QUALITY_BY_PRESET]
      | inf =>
        cases p with
        | none => norm_num [resolveQuality, QUALITY_BY_PRESET]
        | some pp => cases pp <;> norm_num [resolveQuality, QUALITY_BY_PRESET]
      | negInf =>
        cases p with
        | none => norm_num [resolveQuality, QUALITY_BY_PRESET]
        | some pp => cases pp <;> norm_num [resolveQuality, QUALITY_BY_PRESET]
  · simp only [resolveQuality, clamp, jsRound]
    norm_num
  · simp only [resolveQuality, clamp, jsRound]
    norm_num
  · intro p q
    rfl
  · intro p
    rfl
  · intro p j h
    cases j with
    | num r => simp [jsFinite] at h
    | nan => rfl
    | inf => rfl
    | negInf => rfl

/-- Evaluation of `resolve_quality_contract` at a non-finite quality. -/
theorem resolve_quality_contract_witness :
    resolveQuality none (some JSNum.nan) = 90 :=
  (resolve_quality_contract.2.2.2.2.2.2.2.2 none JSNum.nan rfl).trans rfl

/-! ### Pipeline theorems -/

/-- C1: when admission is rejected, the invocation fails with the Busy
`BGError` and leaves the counter untouched; when admission is granted, the
`finally` release runs on every exit path — success, empty-input failure,
segmentation failure or post-processing failure — so the invocation
leaves the counter with a net change of zero. -/
theorem rb_gate_release_on_all_paths (ops : ChannelOps) (env : RBEnv)
    (input : List Nat) (c : Int) (h0 : 0 ≤ c) :
    (MAX_CONCURRENT_REMOVALS ≤ c →
        (removeBackgroundLocal ops env input c).result
          = Except.error (JSError.bgError busyMessage)
        ∧ (removeBackgroundLocal ops env input c).counter = c)
    ∧ (c < MAX_CONCURRENT_REMOVALS →
        (removeBackgroundLocal ops env input c).counter = c) := by
  constructor
  · intro h
    rw [removeBackgroundLocal, if_pos h]
    exact ⟨rfl, rfl⟩
  · intro h
    rw [removeBackgroundLocal, if_neg (by omega)]
    show max 0 (c + 1 - 1) = c
    omega

/-- Evaluation of `rb_gate_release_on_all_paths`: with one slot already
held, an admitted invocation restores the counter; at capacity, the
counter is untouched. -/
theorem rb_gate_release_witness :
    (removeBackgroundLocal specChannelOps okEnv [0] 1).counter = 1
    ∧ (removeBackgroundLocal specChannelOps okEnv [0] 2).counter = 2 :=
  ⟨(rb_gate_release_on_all_paths specChannelOps okEnv [0] 1 (by decide)).2 (by decide),
   ((rb_gate_release_on_all_paths specChannelOps okEnv [0] 2 (by decide)).1 (by decide)).2⟩

/-- C8: an admitted invocation with a zero-length input buffer fails with
the `EmptyInput` message, never invokes the external segmentation
capability, and leaves the counter unchanged. -/
theorem empty_input_contract (ops : ChannelOps) (env : RBEnv)
    (input : List Nat) (c : Int) (h0 : 0 ≤ c)
    (h2 : c < MAX_CONCURRENT_REMOVALS) (hin : input.length = 0) :
    (removeBackgroundLocal ops env input c).result
      = Except.error (JSError.bgError emptyMessage)
    ∧ (removeBackgroundLocal ops env input c).segmentCalled = false
    ∧ (removeBackgroundLocal ops env input c).counter = c := by
  rw [removeBackgroundLocal, if_neg (by omega)]
  rw [rbBody, if_pos hin]
  refine ⟨rfl, rfl, ?_⟩
  show max 0 (c + 1 - 1) = c
  omega

/-- Evaluation of `empty_input_contract` on the empty buffer at counter 0. -/
theorem empty_input_contract_witness :
    (removeBackgroundLocal specChannelOps okEnv [] 0).result
      = Except.error (JSError.bgError emptyMessage)
    ∧ (removeBackgroundLocal specChannelOps okEnv [] 0).segmentCalled = false :=
  ⟨(empty_input_contract specChannelOps okEnv [] 0 (by decide) (by decide) rfl).1,
   (empty_input_contract specChannelOps okEnv [] 0 (by decide) (by decide) rfl).2.1⟩

/-- C3: the alpha post-processing equals the specification's fixed ordered
chain — gain/bias (1.2, -25), then threshold 15, then blur 0.5 — applied
to the alpha channel and recombined with the untouched RGB channels of
the segmentation output, for every semantics of the channel primitives;
and a successful pipeline run returns exactly the encoding of that
refined image. -/
theorem alpha_refinement_fixed_chain :
    (∀ (ops : ChannelOps) (img : Image),
        alphaPostProcess ops img = specRefineAlpha ops img)
    ∧ (∀ (ops : ChannelOps) (img : Image),
        (alphaPostProcess ops img).rgb = img.rgb
        ∧ (alphaPostProcess ops img).alpha
          = ops.blurFn 0.5 (ops.thresholdFn 15 (ops.linearFn 1.2 (-25) img.alpha)))
    ∧ (∀ (ops : ChannelOps) (env : RBEnv) (input : List Nat) (c : Int)
          (wh : Nat × Nat) (pre raw out : List Nat),
        0 ≤ c → c < MAX_CONCURRENT_REMOVALS → input.length ≠ 0 →
        env.metadata = Except.ok wh → env.preprocess = Except.ok pre →
        env.segment pre = Except.ok raw →
        env.encode (alphaPostProcess ops (env.decode raw)) = Except.ok out →
        (removeBackgroundLocal ops env input c).result = Except.ok out) := by
  refine ⟨fun ops img => rfl, fun ops img => ⟨rfl, rfl⟩, ?_⟩
  intro ops env input c wh pre raw out h0 h2 hin hm hp hs he
  rw [removeBackgroundLocal, if_neg (by omega)]
  show wrapBG (rbBody ops env input).1 = Except.ok out
  rw [rbBody, if_neg hin]
  simp only [hm, hp, hs, he, wrapBG]

/-- Evaluation of `alpha_refinement_fixed_chain` in the all-success
environment: the alpha sample 20 is driven to 0 by the gain/bias and
threshold steps, and the pipeline returns the encoded refined image. -/
theorem alpha_refinement_fixed_chain_witness :
    (removeBackgroundLocal specChannelOps okEnv [0] 0).result = Except.ok [0] := by
  have he : okEnv.encode (alphaPostProcess specChannelOps (okEnv.decode [7]))
      = Except.ok [0] := by
    show Except.ok (idBlur 0.5 (specThreshold 15 (specLinear 1.2 (-25) [20])))
      = Except.ok [0]
    norm_num [specLinear, specThreshold, idBlur, ratToByte]
  exact alpha_refinement_fixed_chain.2.2 specChannelOps okEnv [0] 0 (1, 1) [0] [7] [0]
    (by decide) (by decide) (by decide) rfl rfl rfl he

/-- C5 counterexample: a segmentation failure (a generic non-`BGError`
error from the external capability) is rewrapped by the pipeline as a
`BGError`, so the remove-background route answers it with status 400,
not the 500 the claim asserts for segmentation failures. -/
theorem segmentation_failure_maps_to_400 :
    (removeBackgroundLocal specChannelOps segFailEnv [1] 0).result
      = Except.error (JSError.bgError "model inference failed")
    ∧ routeStatus (JSError.bgError "model inference failed") = 400
    ∧ routeStatus (JSError.bgError "model inference failed") ≠ 500 := by
  refine ⟨rfl, rfl, ?_⟩
  decide

/-- C5 (amended): every error surfaced by the pipeline is a `BGError`
because the pipeline's catch block rewraps all errors, so the
remove-background route maps every pipeline failure — validation, busy,
segmentation and post-processing alike — to status 400 with the error's
human-readable message; only a non-`BGError` raised outside the pipeline
maps to 500. -/
theorem route_error_status_total :
    (∀ (ops : ChannelOps) (env : RBEnv) (input : List Nat) (c : Int) (e : JSError),
        (removeBackgroundLocal ops env input c).result = Except.error e →
        isBGError e = true ∧ routeStatus e = 400)
    ∧ (∀ e : JSError, isBGError e = false → routeStatus e = 500)
    ∧ (∀ m : String, routeStatus (JSError.bgError m) = 400)
    ∧ (∀ m : String, routeMessage (JSError.bgError m) = m) := by
  refine ⟨?_, ?_, fun m => rfl, fun m => rfl⟩
  · intro ops env input c e h
    by_cases hc : MAX_CONCURRENT_REMOVALS ≤ c
    · rw [removeBackgroundLocal, if_pos hc] at h
      have h' : Except.error (JSError.bgError busyMessage) = Except.error e := h
      cases h'
      exact ⟨rfl, rfl⟩
    · rw [removeBackgroundLocal, if_neg hc] at h
      have h' : wrapBG (rbBody ops env input).1 = Except.error e := h
      cases hb : (rbBody ops env input).1 with
      | ok out =>
        rw [hb] at h'
        exact absurd h' (by simp [wrapBG])
      | error e0 =>
        rw [hb] at h'
        have h'' : Except.error (α := List Nat)
            (JSError.bgError (errMessage e0)) = Except.error e := h'
        cases h''
        exact ⟨rfl, rfl⟩
  · intro e h
    simp [routeStatus, h]

/-- Evaluation of `route_error_status_total` on the concrete
empty-input failure: the surfaced error is a `BGError` with status 400. -/
theorem route_error_status_total_witness :
    isBGError (JSError.bgError emptyMessage) = true
    ∧ routeStatus (JSError.bgError emptyMessage) = 400 :=
  route_error_status_total.1 specChannelOps okEnv [] 0
    (JSError.bgError emptyMessage) rfl

/-! ### Splitting lemmas for the copy naming -/

theorem splitOnChar_ne_nil (sep : Char) (l : List Char) : splitOnChar sep l ≠ [] := by
  cases l with
  | nil => simp [splitOnChar]
  | cons c rest =>
    rw [splitOnChar]
    cases h : splitOnChar sep rest with
    | nil => simp
    | cons hh tt => by_cases hc : c = sep <;> simp [hc]

theorem splitOnChar_no_sep (sep : Char) (a : List Char) (h : sep ∉ a) :
    splitOnChar sep a = [a] := by
  induction a with
  | nil => rfl
  | cons x xs ih =>
    have hx : ¬ x = sep := fun e => h (by simp [e])
    have hxs : sep ∉ xs := fun hm => h (List.mem_cons_of_mem _ hm)
    rw [splitOnChar, ih hxs]
    simp [hx]

theorem splitOnChar_append (sep : Char) (a ys : List Char) (h : sep ∉ a) :
    splitOnChar sep (a ++ sep :: ys) = a :: splitOnChar sep ys := by
  induction a with
  | nil =>
    rw [List.nil_append, splitOnChar]
    cases hr : splitOnChar sep ys with
    | nil => exact absurd hr (splitOnChar_ne_nil sep ys)
    | cons hh tt => simp
  | cons x xs ih =>
    have hx : ¬ x = sep := fun e => h (by simp [e])
    have hxs : sep ∉ xs := fun hm => h (List.mem_cons_of_mem _ hm)
    rw [List.cons_append, splitOnChar, ih hxs]
    simp [hx]

theorem splitOnChar_sep_length (sep : Char) (ys zs : List Char) :
    2 ≤ (splitOnChar sep (ys ++ sep :: zs)).length := by
  induction ys with
  | nil =>
    rw [List.nil_append, splitOnChar]
    cases hr : splitOnChar sep zs with
    | nil => exact absurd hr (splitOnChar_ne_nil sep zs)
    | cons hh tt => simp
  | cons x xs ih =>
    rw [List.cons_append, splitOnChar]
    cases hr : splitOnChar sep (xs ++ sep :: zs) with
    | nil => exact absurd hr (splitOnChar_ne_nil _ _)
    | cons hh tt =>
      rw [hr] at ih
      by_cases hx : x = sep
      · simp [hx]
      · simp only [if_neg hx, List.length_cons]
        simp only [List.length_cons] at ih
        omega

theorem splitOnChar_getLast (sep : Char) (c : List Char) (hc : sep ∉ c)
    (ys : List Char) :
    (splitOnChar sep (ys ++ sep :: c)).getLast? = some c := by
  induction ys with
  | nil =>
    rw [List.nil_append, splitOnChar, splitOnChar_no_sep sep c hc]
    simp
  | cons x xs ih =>
    rw [List.cons_append, splitOnChar]
    have hlen := splitOnChar_sep_length sep xs c
    cases hr : splitOnChar sep (xs ++ sep :: c) with
    | nil => exact absurd hr (splitOnChar_ne_nil _ _)
    | cons hh tt =>
      rw [hr] at ih hlen
      cases tt with
      | nil => simp at hlen
      | cons t0 ts =>
        by_cases hx : x = sep
        · simp only [if_pos hx, List.getLast?_cons_cons]
          exact ih
        · simp only [if_neg hx, List.getLast?_cons_cons]
          rw [List.getLast?_cons_cons] at ih
          exact ih

theorem appendSuffix_ext (base ext : List Char) (i : Nat)
    (hb : '.' ∉ base) (he : '.' ∉ ext) (hne : ext ≠ []) :
    appendSuffix (base ++ '.' :: ext) i
      = base ++ copyChars ++ natChars i ++ '.' :: ext := by
  rw [appendSuffix, splitOnChar_append _ _ _ hb, splitOnChar_no_sep _ _ he]
  simp [hne, List.append_assoc]

theorem appendSuffix_no_dot (nm : List Char) (i : Nat) (h : '.' ∉ nm) :
    appendSuffix nm i = nm ++ copyChars ++ natChars i := by
  rw [appendSuffix, splitOnChar_no_sep _ _ h]
  simp [List.append_assoc]

/-- C7: the duplicates of an image named `<base>.<ext>` are full copies
differing only in `name`, named `<base>-copy-<i>.<ext>` for `i` from 1 to
`count` in that order; a name without an extension gets the `-copy-<i>`
suffix with no trailing dot. -/
theorem duplicate_naming_contract :
    (∀ (img : ProcessedImage) (base ext : List Char) (count : Nat),
        '.' ∉ base → '.' ∉ ext → ext ≠ [] → img.name = base ++ '.' :: ext →
        duplicateImage img count = (List.range count).map (fun i =>
          { img with name := base ++ copyChars ++ natChars (i + 1) ++ '.' :: ext }))
    ∧ (∀ (img : ProcessedImage) (count : Nat), '.' ∉ img.name →
        duplicateImage img count = (List.range count).map (fun i =>
          { img with name := img.name ++ copyChars ++ natChars (i + 1) })) := by
  constructor
  · intro img base ext count hb he hne hname
    rw [duplicateImage]
    refine List.map_congr_left ?_
    intro i hi
    rw [hname, appendSuffix_ext base ext (i + 1) hb he hne]
  · intro img count h
    rw [duplicateImage]
    refine List.map_congr_left ?_
    intro i hi
    rw [appendSuffix_no_dot img.name (i + 1) h]

/-- Evaluation of `duplicate_naming_contract` on `test.png` with count 3. -/
theorem duplicate_naming_contract_witness :
    (duplicateImage testImg 3).map ProcessedImage.name
      = ["test-copy-1.png".toList, "test-copy-2.png".toList,
         "test-copy-3.png".toList] := by
  have h := duplicate_naming_contract.1 testImg "test".toList "png".toList 3
    (by decide) (by decide) (by decide) (by decide)
  rw [h]
  rfl

/-- C10: a filename with two or more dots keeps only the segment before
the first dot and the segment after the last dot in its copy names; every
middle segment is dropped. -/
theorem append_suffix_drops_middle_segments (a b c : List Char) (i : Nat)
    (ha : '.' ∉ a) (hc : '.' ∉ c) (hne : c ≠ []) :
    appendSuffix (a ++ '.' :: (b ++ '.' :: c)) i
      = a ++ copyChars ++ natChars i ++ '.' :: c := by
  rw [appendSuffix, splitOnChar_append _ _ _ ha]
  have hl := splitOnChar_getLast '.' c hc b
  simp [hl, hne, List.append_assoc]

/-- Evaluation of `append_suffix_drops_middle_segments` on `a.b.png`. -/
theorem append_suffix_drops_middle_segments_witness :
    appendSuffix "a.b.png".toList 1 = "a-copy-1.png".toList := by
  have h := append_suffix_drops_middle_segments "a".toList "b".toList "png".toList 1
    (by decide) (by decide) (by decide)
  exact h.trans (by decide)

/-! ### Base64 round-trip -/

theorem charIndex_alphaChar (i : Nat) (hi : i < 64) :
    charIndex (alphaChar i) base64Alphabet = some i := by
  have h : ∀ j : Fin 64, charIndex (alphaChar j.val) base64Alphabet = some j.val := by
    decide
  exact h ⟨i, hi⟩

theorem alphaChar_ne_pad (i : Nat) (hi : i < 64) : ¬ alphaChar i = '=' := by
  have h : ∀ j : Fin 64, ¬ alphaChar j.val = '=' := by decide
  exact h ⟨i, hi⟩

theorem decodeBase64_encodeBase64 (bs : List Nat) (h : ∀ b ∈ bs, b < 256) :
    decodeBase64 (encodeBase64 bs) = some bs := by
  induction bs using encodeBase64.induct with
  | case1 => rfl
  | case2 b0 =>
    have hb0 : b0 < 256 := h b0 (by simp)
    rw [encodeBase64, decodeBase64,
      charIndex_alphaChar (b0 / 4) (by omega),
      charIndex_alphaChar (b0 % 4 * 16) (by omega)]
    simp
    omega
  | case3 b0 b1 =>
    have hb0 : b0 < 256 := h b0 (by simp)
    have hb1 : b1 < 256 := h b1 (by simp)
    rw [encodeBase64, decodeBase64,
      charIndex_alphaChar (b0 / 4) (by omega),
      charIndex_alphaChar (b0 % 4 * 16 + b1 / 16) (by omega),
      charIndex_alphaChar (b1 % 16 * 4) (by omega)]
    simp [alphaChar_ne_pad (b1 % 16 * 4) (by omega)]
    omega
  | case4 b0 b1 b2 rest ih =>
    have hb0 : b0 < 256 := h b0 (by simp)
    have hb1 : b1 < 256 := h b1 (by simp)
    have hb2 : b2 < 256 := h b2 (by simp)
    have hrest : ∀ b ∈ rest, b < 256 := fun b hb => h b (by simp [hb])
    rw [encodeBase64, decodeBase64,
      charIndex_alphaChar (b0 / 4) (by omega),
      charIndex_alphaChar (b0 % 4 * 16 + b1 / 16) (by omega),
      charIndex_alphaChar (b1 % 16 * 4 + b2 / 64) (by omega),
      charIndex_alphaChar (b2 % 64) (by omega),
      ih hrest]
    simp [alphaChar_ne_pad (b1 % 16 * 4 + b2 / 64) (by omega),
      alphaChar_ne_pad (b2 % 64) (by omega)]
    omega

/-- C9: every `ProcessedImage` built by `toProcessedImage` — the
constructor every transform returns through — has `size` equal to its
byte length and `base64` equal to the base64 encoding of its bytes, so
decoding the `base64` field reproduces the bytes exactly; and every
duplicate keeps both properties since duplication copies all fields but
the name. -/
theorem processed_image_base64_roundtrip (bs : List Nat) (nm mime : List Char)
    (h : ∀ b ∈ bs, b < 256) :
    (toProcessedImage bs nm mime).size = (toProcessedImage bs nm mime).buffer.length
    ∧ decodeBase64 (toProcessedImage bs nm mime).base64
        = some (toProcessedImage bs nm mime).buffer
    ∧ ∀ (count : Nat) (q : ProcessedImage),
        q ∈ duplicateImage (toProcessedImage bs nm mime) count →
        q.size = q.buffer.length ∧ decodeBase64 q.base64 = some q.buffer := by
  refine ⟨rfl, decodeBase64_encodeBase64 bs h, ?_⟩
  intro count q hq
  rw [duplicateImage] at hq
  simp only [List.mem_map] at hq
  obtain ⟨i, hi, rfl⟩ := hq
  exact ⟨rfl, decodeBase64_encodeBase64 bs h⟩

/-- Evaluation of `processed_image_base64_roundtrip` on the bytes
`[1, 2, 3]`. -/
theorem processed_image_base64_roundtrip_witness :
    decodeBase64 (toProcessedImage [1, 2, 3] "a".toList "m".toList).base64
      = some [1, 2, 3] :=
  (processed_image_base64_roundtrip [1, 2, 3] "a".toList "m".toList (by decide)).2.1

end ImgCompression
